import Mathlib

/-!
Verification of the custom-projection Leaflet plugin.

This file embeds the coordinate / tiling / viewport-adaptation core of the
plugin:

* `bounds.ts` — `parseBounds`;
* `buildProjCrs.ts` — construction of the projected CRS, including the
  derived scale/zoom functions used when no explicit resolutions array is
  given;
* `CustomCrsTilingScheme.ts` — tile counts, tile↔rectangle conversions and
  `positionToTileXY`;
* `LeafeltWithCrs.ts` — `setupMaxBounds`, `setMinZoomFromBounds`,
  `updateMaxBounds`, the patched `flyTo` and the extent branch of `doZoomTo`.

Exact coordinate arithmetic is modelled over `ℚ` (and over `ℝ` where the
code takes logarithms); the Leaflet / proj4leaflet primitives the code calls
(`L.Bounds`, `L.Transformation`, `L.CRS.getProjectedBounds`,
`map.getScaleZoom`) are embedded from the library sources.  JavaScript
division-by-zero / `Infinity` behaviour, where it matters, is modelled with
an explicit extended-number type.
-/

/-! ## Points and bounds (Leaflet `L.Point`, `L.Bounds`) -/

/-- A 2D point, as Leaflet's `L.Point`; coordinates are exact rationals. -/
abbrev PointQ := ℚ × ℚ

/-- JavaScript `Math.round`: half-up rounding, `Math.round x = ⌊x + 1/2⌋`. -/
def jsRound (q : ℚ) : ℤ := ⌊q + 1 / 2⌋

/-- `round8` from `CustomCrsTilingScheme.ts`: round to 8 decimal places,
`Math.round(value * 100000000) / 100000000`. -/
def round8 (q : ℚ) : ℚ := (jsRound (q * 100000000) : ℚ) / 100000000

/-- Leaflet `L.Bounds`: a min and a max corner. The constructor (`lbounds`)
always normalizes, so `bmin ≤ bmax` componentwise by construction. -/
structure BoundsQ where
  bmin : PointQ
  bmax : PointQ
deriving DecidableEq, Repr

/-- `L.bounds(p, q)` / `new L.Bounds([p, q])`: the min corner is the
componentwise minimum and the max corner the componentwise maximum. -/
def lbounds (p q : PointQ) : BoundsQ :=
  ⟨(min p.1 q.1, min p.2 q.2), (max p.1 q.1, max p.2 q.2)⟩

/-- `L.Bounds.extend` with a bounds argument: componentwise min/max union. -/
def BoundsQ.extend (a b : BoundsQ) : BoundsQ :=
  ⟨(min a.bmin.1 b.bmin.1, min a.bmin.2 b.bmin.2),
   (max a.bmax.1 b.bmax.1, max a.bmax.2 b.bmax.2)⟩

/-- `L.Bounds.getSize()`: `max.subtract(min)`. -/
def BoundsQ.getSize (a : BoundsQ) : PointQ :=
  (a.bmax.1 - a.bmin.1, a.bmax.2 - a.bmin.2)

/-! ## `bounds.ts` — `parseBounds` -/

/-- A possibly-incomplete coordinate record `{x?: number, y?: number}`. -/
structure CoordRec where
  x : Option ℚ
  y : Option ℚ
deriving DecidableEq, Repr

/-- A possibly-incomplete bounds record `{min?: {x?, y?}, max?: {x?, y?}}`. -/
structure BoundsRec where
  min : Option CoordRec
  max : Option CoordRec
deriving DecidableEq, Repr

/-- `parseBounds` from `bounds.ts`: return `undefined` when `min`/`max` or
any of the four coordinates is missing, otherwise `L.bounds([min, max])`. -/
def parseBounds : Option BoundsRec → Option BoundsQ
  | none => none
  | some r =>
    match r.min, r.max with
    | some mn, some mx =>
      match mn.x, mn.y, mx.x, mx.y with
      | some xmin, some ymin, some xmax, some ymax =>
        some (lbounds (xmin, ymin) (xmax, ymax))
      | _, _, _, _ => none
    | _, _ => none

/-- A bounds record missing `min`, `max` or one of the four coordinates. -/
def incompleteRec (r : BoundsRec) : Prop :=
  match r.min, r.max with
  | some mn, some mx => mn.x = none ∨ mn.y = none ∨ mx.x = none ∨ mx.y = none
  | none, _ => True
  | _, none => True

/-- Boolean version of `incompleteRec`. -/
def incompleteRecB (r : BoundsRec) : Bool :=
  match r.min, r.max with
  | some mn, some mx => mn.x.isNone || mn.y.isNone || mx.x.isNone || mx.y.isNone
  | _, _ => true

instance (r : BoundsRec) : Decidable (incompleteRec r) :=
  decidable_of_iff (incompleteRecB r = true) (by
    unfold incompleteRecB incompleteRec
    rcases r with ⟨_ | mn, _ | mx⟩ <;> simp [Option.isNone_iff_eq_none, or_assoc])

/-! ## `buildProjCrs.ts` — projected CRS construction

proj4leaflet's `L.Proj.CRS` uses the Leaflet transformation
`L.Transformation(1, -origin.x, -1, origin.y)` when an origin is given and
`L.Transformation(1, 0, -1, 0)` otherwise; `buildProjCrs` passes
`origin = [bounds.min.x, bounds.max.y]` exactly when bounds parse.  So the
transformation always has `a = 1`, `c = -1`; only the offsets `b`, `d`
vary, and we record them together with the parsed bounds and the derived
zoom-0 resolution.  -/

/-- The data of the `L.Proj.CRS` built by `buildProjCrs` (no explicit
resolutions array): parsed native bounds, transformation offsets and the
derived resolution at zoom 0. -/
structure ProjCrsQ where
  bounds : Option BoundsQ
  b : ℚ
  d : ℚ
  res0 : ℚ
deriving DecidableEq, Repr

/-- `buildProjCrs` (the no-`resolutions` path): parse the projected bounds;
with bounds, origin is `[min.x, max.y]` and
`res0 = max(size.x, size.y) / 256`; without bounds the CRS is infinite,
the transformation is the proj4leaflet default `(1, 0, -1, 0)` and
`res0 = 256`. -/
def buildProjCrsQ (projectedBounds : Option BoundsRec) : ProjCrsQ :=
  match parseBounds projectedBounds with
  | some bb =>
    { bounds := some bb
      b := -bb.bmin.1
      d := bb.bmax.2
      res0 := max (bb.getSize).1 (bb.getSize).2 / 256 }
  | none => { bounds := none, b := 0, d := 0, res0 := 256 }

/-- Leaflet `L.Transformation(1, b, -1, d).transform(p, s)`:
`(s * (p.x + b), s * (-p.y + d))`. -/
def transformQ (crs : ProjCrsQ) (p : PointQ) (s : ℚ) : PointQ :=
  (s * (1 * p.1 + crs.b), s * (-1 * p.2 + crs.d))

/-- Leaflet `L.Transformation(1, b, -1, d).untransform(p, s)`:
`((p.x / s - b) / 1, (p.y / s - d) / -1)`. -/
def untransformQ (crs : ProjCrsQ) (p : PointQ) (s : ℚ) : PointQ :=
  ((p.1 / s - crs.b) / 1, (p.2 / s - crs.d) / -1)

/-- The derived `projCrs.scale` of `buildProjCrs`, at an integer zoom
level: `scale(zoom) = 1 / (res0 / 2^zoom)`. -/
def scaleQ (crs : ProjCrsQ) (zoom : ℕ) : ℚ :=
  1 / (crs.res0 / 2 ^ zoom)

theorem lbounds_le_fst (p q : PointQ) : (lbounds p q).bmin.1 ≤ (lbounds p q).bmax.1 :=
  le_trans (min_le_left _ _) (le_max_left _ _)

theorem lbounds_le_snd (p q : PointQ) : (lbounds p q).bmin.2 ≤ (lbounds p q).bmax.2 :=
  le_trans (min_le_left _ _) (le_max_left _ _)

/-! ## `CustomCrsTilingScheme.ts`

The proj4 forward/inverse transform behind `crs.project` / `crs.unproject`
is an external library call; we model it as a separable pair of coordinate
maps `X` (longitude → native x) and `Y` (latitude → native y) with given
inverses, carried as parameters of the scheme.  A geographic position is a
`(lat, lng)` pair; the degree↔radian unit changes the code performs between
Leaflet and Cesium are linear and cancel along every path modelled here, so
geographic coordinates are kept in one unit throughout. -/

/-- A geographic position `(lat, lng)`. -/
abbrev LatLngQ := ℚ × ℚ

/-- `CustomCrsTilingScheme`: the projected CRS, the separable projection
model, and the tile size (`build` always passes 256×256). -/
structure TilingSchemeQ where
  crs : ProjCrsQ
  X : ℚ → ℚ
  Xinv : ℚ → ℚ
  Y : ℚ → ℚ
  Yinv : ℚ → ℚ
  tileW : ℚ
  tileH : ℚ

/-- `crs.project(latLng)`: proj4 forward transform, separable model. -/
def projectLL (ts : TilingSchemeQ) (ll : LatLngQ) : PointQ :=
  (ts.X ll.2, ts.Y ll.1)

/-- `crs.unproject(point)`: proj4 inverse transform, separable model. -/
def unprojectLL (ts : TilingSchemeQ) (p : PointQ) : LatLngQ :=
  (ts.Yinv p.2, ts.Xinv p.1)

/-- Leaflet `crs.latLngToPoint(latLng, zoom)`: project, then apply the
transformation at `scale(zoom)`. -/
def latLngToPoint (ts : TilingSchemeQ) (ll : LatLngQ) (zoom : ℕ) : PointQ :=
  transformQ ts.crs (projectLL ts ll) (scaleQ ts.crs zoom)

/-- Leaflet `crs.pointToLatLng(point, zoom)`: untransform at `scale(zoom)`,
then unproject. -/
def pointToLatLng (ts : TilingSchemeQ) (p : PointQ) (zoom : ℕ) : LatLngQ :=
  unprojectLL ts (untransformQ ts.crs p (scaleQ ts.crs zoom))

/-- A rectangle, as the pieces of a Cesium `Rectangle` used by the code. -/
structure RectQ where
  west : ℚ
  south : ℚ
  east : ℚ
  north : ℚ
deriving DecidableEq, Repr

/-- `tileXYToNativeRectangle`: tile corners in pixel space, pixel →
geographic → native through the CRS at the level, normalized with
`L.bounds` and rounded to 8 decimals. -/
def tileXYToNativeRectangle (ts : TilingSchemeQ) (x y : ℤ) (level : ℕ) : RectQ :=
  let nwPixelPoint : PointQ := ((x : ℚ) * ts.tileW, (y : ℚ) * ts.tileH)
  let sePixelPoint : PointQ := (nwPixelPoint.1 + ts.tileW, nwPixelPoint.2 + ts.tileH)
  let nwLatLng := pointToLatLng ts nwPixelPoint level
  let seLatLng := pointToLatLng ts sePixelPoint level
  let nwCrsPoint := projectLL ts nwLatLng
  let seCrsPoint := projectLL ts seLatLng
  let bounds := lbounds nwCrsPoint seCrsPoint
  { west := round8 bounds.bmin.1
    south := round8 bounds.bmin.2
    east := round8 bounds.bmax.1
    north := round8 bounds.bmax.2 }

/-- `tileXYToRectangle`: the native rectangle with its southwest and
northeast corners unprojected to geographic coordinates. -/
def tileXYToRectangle (ts : TilingSchemeQ) (x y : ℤ) (level : ℕ) : RectQ :=
  let n := tileXYToNativeRectangle ts x y level
  let southwest := unprojectLL ts (n.west, n.south)
  let northeast := unprojectLL ts (n.east, n.north)
  { west := southwest.2, south := southwest.1
    east := northeast.2, north := northeast.1 }

/-- The center of a (non-wrapping) rectangle: componentwise midpoint, as
Cesium `Rectangle.center` computes it when `west ≤ east`. -/
def rectCenter (r : RectQ) : LatLngQ :=
  ((r.south + r.north) / 2, (r.west + r.east) / 2)

/-- `positionToTileXY`: geographic position to native pixel space at the
level, floor-divided componentwise by the tile size. -/
def positionToTileXY (ts : TilingSchemeQ) (pos : LatLngQ) (level : ℕ) : ℤ × ℤ :=
  let crsCoord := latLngToPoint ts pos level
  (⌊crsCoord.1 / ts.tileW⌋, ⌊crsCoord.2 / ts.tileH⌋)

/-- Leaflet `crs.getProjectedBounds(zoom)`: `null` for an infinite CRS
(proj4leaflet sets `infinite` exactly when no bounds were given), otherwise
the transformation applied to both bounds corners at `scale(zoom)`,
renormalized by the `L.Bounds` constructor. -/
def getProjectedBounds (crs : ProjCrsQ) (zoom : ℕ) : Option BoundsQ :=
  match crs.bounds with
  | none => none
  | some bb =>
    let s := scaleQ crs zoom
    some (lbounds (transformQ crs bb.bmin s) (transformQ crs bb.bmax s))

/-- `getNumberOfTilesAtLevel`: pixel bounds at the level, unscaled by the
tile size, max minus min; `(Infinity, Infinity)` when there are no bounds
(in the model, `⊤` of `WithTop ℚ` stands for the JS `Infinity`). -/
def getNumberOfTilesAtLevel (ts : TilingSchemeQ) (level : ℕ) :
    WithTop ℚ × WithTop ℚ :=
  match getProjectedBounds ts.crs level with
  | none => (⊤, ⊤)
  | some bounds =>
    let tileRangeMin : PointQ := (bounds.bmin.1 / ts.tileW, bounds.bmin.2 / ts.tileH)
    let tileRangeMax : PointQ := (bounds.bmax.1 / ts.tileW, bounds.bmax.2 / ts.tileH)
    ((tileRangeMax.1 - tileRangeMin.1 : ℚ), (tileRangeMax.2 - tileRangeMin.2 : ℚ))

/-- `CustomCrsTilingScheme.build`: build the CRS from the definition and a
256×256 tile scheme over it; the projection maps are the proj4 transform
parameters. -/
def buildTilingScheme (projectedBounds : Option BoundsRec)
    (X Xinv Y Yinv : ℚ → ℚ) : TilingSchemeQ :=
  { crs := buildProjCrsQ projectedBounds
    X := X, Xinv := Xinv, Y := Y, Yinv := Yinv
    tileW := 256, tileH := 256 }

/-! ## `LeafeltWithCrs.ts` — item bounds aggregation -/

/-- A per-item bounding box record `{crs, min?, max?}`. -/
structure BBoxRec where
  crs : String
  box : BoundsRec
deriving DecidableEq, Repr

/-- A catalog item as `itemBounds` sees it: whether it is a CRS model,
whether it is shown, its own CRS tag and its bounding-box records. -/
structure ItemQ where
  isCrsModel : Bool
  shown : Bool
  crs : Option String
  boundingBoxes : List BBoxRec
deriving DecidableEq, Repr

/-- `getItemBounds` (local function of `itemBounds`): for a CRS model,
parse the bounding box found for the map CRS code. -/
def getItemBounds (crsCode : String) (item : ItemQ) : Option BoundsQ :=
  if item.isCrsModel then
    parseBounds ((item.boundingBoxes.find? (fun box => box.crs = crsCode)).map BBoxRec.box)
  else none

/-- `itemBounds`: start from the previewed item's bounds, then fold over
the catalog items, keeping only shown CRS models tagged with the map CRS
whose box parses, extending the combined bounds with each. -/
def itemBounds (crsCode : String) (previewed : Option ItemQ)
    (items : List ItemQ) : Option BoundsQ :=
  let initial := previewed.bind (getItemBounds crsCode)
  items.foldl
    (fun combined item =>
      if item.isCrsModel ∧ item.shown ∧ item.crs = some crsCode then
        match getItemBounds crsCode item with
        | none => combined
        | some ib =>
          match combined with
          | none => some ib
          | some cb => some (cb.extend ib)
      else combined)
    initial

/-! ## `LeafeltWithCrs.ts` — max-bounds setup trace (static vs dynamic) -/

/-- Viewer mutations observable from `setupMaxBounds` and its handlers. -/
inductive MutationQ where
  | setMaxBounds
  | setMinZoom
deriving DecidableEq, Repr

/-- Leaflet map events the dynamic mode subscribes to. -/
inductive EventQ where
  | layeradd
  | layerremove
deriving DecidableEq, Repr

/-- The mutation trace of one `updateMaxBounds` call:
`setMinZoomFromBounds` (a min-zoom mutation) then `setMaxBounds`. -/
def updateMaxBoundsTrace : List MutationQ :=
  [MutationQ.setMinZoom, MutationQ.setMaxBounds]

/-- `setupMaxBounds`, as construction-time trace plus registered event
handlers: with known projection bounds, a single `setMaxBounds` and no
handlers; otherwise one `updateMaxBounds` now and an `updateMaxBounds`
handler on `layeradd` and `layerremove`. -/
def setupMaxBoundsTrace (crsBounds : Option BoundsQ) :
    List MutationQ × Bool :=
  match crsBounds with
  | some _ => ([MutationQ.setMaxBounds], false)
  | none => (updateMaxBoundsTrace, true)

/-- Replay a list of map events: each event fires the registered
`updateMaxBounds` handler, if any. -/
def eventsTrace (handlersRegistered : Bool) (events : List EventQ) :
    List MutationQ :=
  if handlersRegistered then events.flatMap (fun _ => updateMaxBoundsTrace)
  else []

/-- The full mutation trace of a controller over its lifetime:
construction followed by an arbitrary sequence of layer events. -/
def controllerTrace (crsBounds : Option BoundsQ) (events : List EventQ) :
    List MutationQ :=
  (setupMaxBoundsTrace crsBounds).1 ++
    eventsTrace (setupMaxBoundsTrace crsBounds).2 events

/-! ## Helper lemmas -/

/-- `round8` is monotone. -/
theorem round8_mono {q r : ℚ} (h : q ≤ r) : round8 q ≤ round8 r := by
  unfold round8 jsRound
  have hf : (⌊q * 100000000 + 1 / 2⌋ : ℤ) ≤ ⌊r * 100000000 + 1 / 2⌋ :=
    Int.floor_le_floor (by nlinarith)
  exact (div_le_div_iff_of_pos_right (by norm_num)).mpr (by exact_mod_cast hf)

/-! ## Claim theorems -/

/-- The CRS definition of the worked numerical example: native bounds
`min(-4194304, -4194304)`, `max(4194304, 4194304)`. -/
def exampleBoundsRec : BoundsRec :=
  ⟨some ⟨some (-4194304), some (-4194304)⟩, some ⟨some 4194304, some 4194304⟩⟩

/-- The tiling scheme over the example CRS (projection maps irrelevant to
tile counting; the identity stands in). -/
def exampleScheme : TilingSchemeQ :=
  buildTilingScheme (some exampleBoundsRec) id id id id

/-- A tiling scheme over an unbounded CRS. -/
def unboundedScheme : TilingSchemeQ :=
  buildTilingScheme none id id id id

/-- C8: for native bounds ±4194304 with tile size 256 and no explicit
resolutions, the derived zoom-0 resolution is `8388608 / 256 = 32768` and
`tileCountAtLevel 0 = (1, 1)`; for a CRS with unknown bounds the tile
count is `(∞, ∞)` at every level. -/
theorem C8_tile_count_example :
    (buildProjCrsQ (some exampleBoundsRec)).res0 = 32768 ∧
    getNumberOfTilesAtLevel exampleScheme 0 = ((1 : WithTop ℚ), (1 : WithTop ℚ)) ∧
    ∀ level : ℕ, getNumberOfTilesAtLevel unboundedScheme level = (⊤, ⊤) := by
  refine ⟨?_, ?_, fun level => rfl⟩ <;>
    norm_num [buildProjCrsQ, exampleBoundsRec, parseBounds, lbounds,
      BoundsQ.getSize, getNumberOfTilesAtLevel, getProjectedBounds,
      exampleScheme, buildTilingScheme, transformQ, scaleQ,
      min_def, max_def, Prod.ext_iff]

/-- C5: a controller over a CRS with known static projection bounds mutates
the viewer max-bounds exactly once, at construction; no event handler is
registered, so no later item-add/item-remove event produces any further
mutation and the dynamic-recomputation mode is never entered. -/
theorem C5_static_bounds_single_mutation (b : BoundsQ) (events : List EventQ) :
    controllerTrace (some b) events = [MutationQ.setMaxBounds] ∧
    (setupMaxBoundsTrace (some b)).2 = false := by
  constructor
  · simp [controllerTrace, setupMaxBoundsTrace, eventsTrace]
  · rfl

/-- C9: a bounding-box record missing `min`, `max` or any of the four
coordinates parses to no bounds (never to zeroes), and an item whose
matched box is such a record leaves the aggregated item bounds unchanged. -/
theorem C9_incomplete_bounds_excluded :
    (∀ r : BoundsRec, incompleteRec r → parseBounds (some r) = none) ∧
    (∀ (crsCode : String) (previewed : Option ItemQ) (items : List ItemQ)
        (item : ItemQ) (box : BBoxRec),
      item.boundingBoxes.find? (fun bx => bx.crs = crsCode) = some box →
      incompleteRec box.box →
      itemBounds crsCode previewed (item :: items) =
        itemBounds crsCode previewed items) := by
  have hparse : ∀ r : BoundsRec, incompleteRec r → parseBounds (some r) = none := by
    intro r hr
    unfold incompleteRec at hr
    unfold parseBounds
    rcases r with ⟨_ | mn, _ | mx⟩ <;> simp_all
    rcases hr with h | h | h | h <;> simp [h]
  refine ⟨hparse, ?_⟩
  intro crsCode previewed items item box hfind hinc
  unfold itemBounds
  rw [List.foldl_cons]
  congr 1
  have hitem : getItemBounds crsCode item = none := by
    unfold getItemBounds
    rw [hfind]
    by_cases hm : item.isCrsModel <;> simp [hm, hparse box.box hinc]
  split
  · rw [hitem]
  · rfl

/-- C10: the native rectangle of any tile is normalized — `west ≤ east`
and `south ≤ north` — because the min corner is the componentwise minimum
and the max corner the componentwise maximum of the two projected corner
points, and rounding to 8 decimals is monotone. -/
theorem C10_native_rectangle_normalized (ts : TilingSchemeQ) (x y : ℤ) (level : ℕ) :
    (tileXYToNativeRectangle ts x y level).west ≤
      (tileXYToNativeRectangle ts x y level).east ∧
    (tileXYToNativeRectangle ts x y level).south ≤
      (tileXYToNativeRectangle ts x y level).north := by
  unfold tileXYToNativeRectangle
  exact ⟨round8_mono (lbounds_le_fst _ _), round8_mono (lbounds_le_snd _ _)⟩

/-- A concrete CRS code for witnesses. -/
def sampleCode : String := "EPSG:3031"

/-- A concrete bounding-box record with a missing `min.y` coordinate. -/
def sampleIncompleteRec : BoundsRec := ⟨some ⟨some 1, none⟩, some ⟨some 2, some 3⟩⟩

/-- A concrete box carrying the incomplete record. -/
def sampleIncompleteBox : BBoxRec := ⟨sampleCode, sampleIncompleteRec⟩

/-- A concrete shown CRS-model item whose only box is incomplete. -/
def sampleIncompleteItem : ItemQ :=
  ⟨true, true, some sampleCode, [sampleIncompleteBox]⟩

/-- Witness for C9 at a concrete incomplete record and item. -/
theorem C9_incomplete_bounds_excluded_witness :
    parseBounds (some sampleIncompleteRec) = none ∧
    itemBounds sampleCode none [sampleIncompleteItem] =
      itemBounds sampleCode none [] :=
  ⟨C9_incomplete_bounds_excluded.1 sampleIncompleteRec (by decide),
   C9_incomplete_bounds_excluded.2 sampleCode none [] sampleIncompleteItem
     sampleIncompleteBox (by rfl) (by decide)⟩

/-! ## `buildProjCrs.ts` — derived scale/zoom functions

When no explicit resolutions array is given, `buildProjCrs` installs
`scale(zoom) = 1 / (res0 / 2^zoom)` and `zoom(scale) = log2(scale * res0)`
on the CRS, with `res0 = max(boundsWidth, boundsHeight) / 256` when bounds
are known and `res0 = 256` otherwise.  Zoom arguments may be fractional,
so these live over `ℝ`. -/

/-- The derived `projCrs.scale`: `1 / (res0 / 2^zoom)`. -/
noncomputable def derivedScale (res0 : ℝ) (zoom : ℝ) : ℝ :=
  1 / (res0 / (2 : ℝ) ^ zoom)

/-- The derived `projCrs.zoom`: `Math.log2(scale * res0)`. -/
noncomputable def derivedZoom (res0 : ℝ) (scale : ℝ) : ℝ :=
  Real.logb 2 (scale * res0)

/-- C1: for a CRS built without an explicit resolutions array — with
`res0 = max(boundsWidth, boundsHeight)/256` in the bounded derivation and
`res0 = 256` in the unbounded one — the derived scale and zoom functions
are mutual inverses: `zoom (scale z) = z` for every zoom `z` and
`scale (zoom s) = s` for every positive scale `s` (exactly, over `ℝ`). -/
theorem C1_scale_zoom_mutual_inverses (pb : Option BoundsRec)
    (hres : 0 < ((buildProjCrsQ pb).res0 : ℝ)) :
    (∀ z : ℝ,
      derivedZoom ((buildProjCrsQ pb).res0 : ℝ)
        (derivedScale ((buildProjCrsQ pb).res0 : ℝ) z) = z) ∧
    (∀ s : ℝ, 0 < s →
      derivedScale ((buildProjCrsQ pb).res0 : ℝ)
        (derivedZoom ((buildProjCrsQ pb).res0 : ℝ) s) = s) := by
  set r : ℝ := ((buildProjCrsQ pb).res0 : ℝ) with hr
  have hrne : r ≠ 0 := ne_of_gt hres
  constructor
  · intro z
    have h2 : (0 : ℝ) < (2 : ℝ) ^ z := Real.rpow_pos_of_pos (by norm_num) z
    unfold derivedZoom derivedScale
    rw [one_div_div, div_mul_cancel₀ _ hrne]
    exact Real.logb_rpow (by norm_num) (by norm_num)
  · intro s hs
    have hsr : (0 : ℝ) < s * r := mul_pos hs hres
    unfold derivedZoom derivedScale
    rw [Real.rpow_logb (by norm_num) (by norm_num) hsr, one_div_div,
      mul_div_assoc, div_self hrne, mul_one]

/-- Witness for C1 on the unbounded derivation (`res0 = 256`) at zoom 3
and scale 5. -/
theorem C1_scale_zoom_mutual_inverses_witness :
    derivedZoom ((buildProjCrsQ none).res0 : ℝ)
        (derivedScale ((buildProjCrsQ none).res0 : ℝ) 3) = 3 ∧
    derivedScale ((buildProjCrsQ none).res0 : ℝ)
        (derivedZoom ((buildProjCrsQ none).res0 : ℝ) 5) = 5 := by
  have h := C1_scale_zoom_mutual_inverses none
    (by norm_num [buildProjCrsQ, parseBounds])
  exact ⟨h.1 3, h.2 5 (by norm_num)⟩

/-! ## `LeafeltWithCrs.ts` — min zoom and max bounds on the map state -/

/-- A Leaflet layer as `setMinZoomFromBounds` sees it: whether it is an
`L.TileLayer`, and its `options.minZoom` / `options.minNativeZoom`. -/
structure LayerQ where
  isTileLayer : Bool
  minZoom : Option ℤ
  minNativeZoom : Option ℤ
deriving DecidableEq, Repr

/-- The viewer state mutated by `updateMaxBounds`: the map min zoom, the
map max bounds and the layers. -/
structure MapStateQ where
  minZoom : ℤ
  maxBounds : Option BoundsQ
  layers : List LayerQ
deriving DecidableEq, Repr

/-- The Leaflet transformation over `ℝ` (same `a = 1`, `c = -1` shape). -/
noncomputable def transformR (crs : ProjCrsQ) (p : ℝ × ℝ) (s : ℝ) : ℝ × ℝ :=
  (s * (1 * p.1 + (crs.b : ℝ)), s * (-1 * p.2 + (crs.d : ℝ)))

/-- The min-zoom computation of `setMinZoomFromBounds`: 0 without bounds;
otherwise transform both corners to pixel space at `scale(0)`, take the
largest absolute pixel extent as the resolution, and floor the CRS zoom of
`1 / resolution`. -/
noncomputable def computeMinZoom (crs : ProjCrsQ) (bounds : Option BoundsQ) : ℤ :=
  match bounds with
  | none => 0
  | some bb =>
    let scaleAtZoom0 := derivedScale (crs.res0 : ℝ) 0
    let pixelMin := transformR crs ((bb.bmin.1 : ℝ), (bb.bmin.2 : ℝ)) scaleAtZoom0
    let pixelMax := transformR crs ((bb.bmax.1 : ℝ), (bb.bmax.2 : ℝ)) scaleAtZoom0
    let pixelExtent := (pixelMax.1 - pixelMin.1, pixelMax.2 - pixelMin.2)
    let resolution := max |pixelExtent.1| |pixelExtent.2|
    let scale := 1 / resolution
    ⌊derivedZoom (crs.res0 : ℝ) scale⌋

/-- The per-layer branch of `setMinZoomFromBounds`: a tile layer whose
`minNativeZoom` is unset or whose `minZoom` differs gets the new min zoom
(and a defaulted `minNativeZoom` of 0); every other layer is untouched. -/
def updateLayerMinZoom (mz : ℤ) (l : LayerQ) : LayerQ :=
  if l.isTileLayer = true ∧ (l.minNativeZoom = none ∨ l.minZoom ≠ some mz) then
    { l with minZoom := some mz, minNativeZoom := some (l.minNativeZoom.getD 0) }
  else l

/-- Apply a min zoom to the map and to each layer, as the tail of
`setMinZoomFromBounds` does. -/
def applyMinZoom (mz : ℤ) (st : MapStateQ) : MapStateQ :=
  { st with minZoom := mz, layers := st.layers.map (updateLayerMinZoom mz) }

/-- `setMinZoomFromBounds`: compute the min zoom from the bounds and apply
it to the map and all layers. -/
noncomputable def setMinZoomFromBounds (crs : ProjCrsQ) (bounds : Option BoundsQ)
    (st : MapStateQ) : MapStateQ :=
  applyMinZoom (computeMinZoom crs bounds) st

/-- `setMaxBounds` on the map state: records the new max bounds (the
geographic conversion and the conditional `fitBounds` move the view, not
the zoom limits). -/
def setMaxBoundsState (bounds : Option BoundsQ) (st : MapStateQ) : MapStateQ :=
  { st with maxBounds := bounds }

/-- `updateMaxBounds`: `setMinZoomFromBounds` then `setMaxBounds`. -/
noncomputable def updateMaxBounds (crs : ProjCrsQ) (bounds : Option BoundsQ)
    (st : MapStateQ) : MapStateQ :=
  setMaxBoundsState bounds (setMinZoomFromBounds crs bounds st)

/-- C2: in dynamic (unbounded-CRS) mode, for non-empty aggregated bounds
the min zoom applied to the map is `⌊zoom (1 / resolution)⌋` with
`resolution = max(extentWidth, extentHeight) / 256` measured in native
units; with absent bounds the applied min zoom is 0. -/
theorem C2_dynamic_min_zoom (bb : BoundsQ) (st : MapStateQ)
    (hx : bb.bmin.1 ≤ bb.bmax.1) (hy : bb.bmin.2 ≤ bb.bmax.2) :
    (setMinZoomFromBounds (buildProjCrsQ none) (some bb) st).minZoom =
      ⌊derivedZoom 256
        (1 / (max ((bb.bmax.1 : ℝ) - (bb.bmin.1 : ℝ))
          ((bb.bmax.2 : ℝ) - (bb.bmin.2 : ℝ)) / 256))⌋ ∧
    ∀ st2 : MapStateQ,
      (setMinZoomFromBounds (buildProjCrsQ none) none st2).minZoom = 0 := by
  refine ⟨?_, fun st2 => rfl⟩
  have hw0 : (0:ℝ) ≤ (bb.bmax.1 : ℝ) - (bb.bmin.1 : ℝ) :=
    sub_nonneg.mpr (by exact_mod_cast hx)
  have hh0 : (0:ℝ) ≤ (bb.bmax.2 : ℝ) - (bb.bmin.2 : ℝ) :=
    sub_nonneg.mpr (by exact_mod_cast hy)
  show computeMinZoom (buildProjCrsQ none) (some bb) = _
  simp only [computeMinZoom, transformR, derivedScale, buildProjCrsQ, parseBounds]
  norm_num [Real.rpow_zero]
  have h1 : |1 / 256 * ((bb.bmax.1 : ℝ)) - 1 / 256 * ((bb.bmin.1 : ℝ))| =
      ((bb.bmax.1 : ℝ) - (bb.bmin.1 : ℝ)) / 256 := by
    rw [show 1 / 256 * ((bb.bmax.1 : ℝ)) - 1 / 256 * ((bb.bmin.1 : ℝ)) =
      ((bb.bmax.1 : ℝ) - (bb.bmin.1 : ℝ)) / 256 by ring]
    exact abs_of_nonneg (div_nonneg hw0 (by norm_num))
  have h2 : |-(1 / 256 * ((bb.bmax.2 : ℝ))) + 1 / 256 * ((bb.bmin.2 : ℝ))| =
      ((bb.bmax.2 : ℝ) - (bb.bmin.2 : ℝ)) / 256 := by
    rw [show -(1 / 256 * ((bb.bmax.2 : ℝ))) + 1 / 256 * ((bb.bmin.2 : ℝ)) =
      -(((bb.bmax.2 : ℝ) - (bb.bmin.2 : ℝ)) / 256) by ring, abs_neg]
    exact abs_of_nonneg (div_nonneg hh0 (by norm_num))
  rw [h1, h2, max_div_div_right (by norm_num : (0:ℝ) ≤ 256), inv_div]

/-- A concrete bounds value for witnesses: 0..256 in both axes. -/
def wBounds : BoundsQ := ⟨(0, 0), (256, 256)⟩

/-- A concrete map state for witnesses. -/
def wState : MapStateQ := ⟨0, none, []⟩

/-- Witness for C2 at the concrete bounds 0..256. -/
theorem C2_dynamic_min_zoom_witness :
    (setMinZoomFromBounds (buildProjCrsQ none) (some wBounds) wState).minZoom =
      ⌊derivedZoom 256
        (1 / (max ((wBounds.bmax.1 : ℝ) - (wBounds.bmin.1 : ℝ))
          ((wBounds.bmax.2 : ℝ) - (wBounds.bmin.2 : ℝ)) / 256))⌋ :=
  (C2_dynamic_min_zoom wBounds wState (by norm_num [wBounds]) (by norm_num [wBounds])).1

/-- C7: at the end of every `updateMaxBounds` recomputation cycle, every
tile layer's min zoom equals the map's min zoom — the map mutation and the
per-layer mutations are applied in one cycle and agree. -/
theorem C7_min_zoom_applied_atomically (crs : ProjCrsQ) (bounds : Option BoundsQ)
    (st : MapStateQ) :
    ∀ layer ∈ (updateMaxBounds crs bounds st).layers, layer.isTileLayer = true →
      layer.minZoom = some ((updateMaxBounds crs bounds st).minZoom) := by
  intro layer hmem htile
  have hzoom : (updateMaxBounds crs bounds st).minZoom = computeMinZoom crs bounds := rfl
  have hlayers : (updateMaxBounds crs bounds st).layers =
      st.layers.map (updateLayerMinZoom (computeMinZoom crs bounds)) := rfl
  rw [hzoom]
  rw [hlayers] at hmem
  obtain ⟨l, _, rfl⟩ := List.mem_map.mp hmem
  unfold updateLayerMinZoom at htile ⊢
  split
  · rfl
  · rename_i hcond
    push_neg at hcond
    split at htile
    · simp_all
    · exact (hcond htile).2

/-- Witness for C7: one tile layer with unset zoom options, absent bounds. -/
theorem C7_min_zoom_applied_atomically_witness :
    (⟨true, some 0, some 0⟩ : LayerQ).minZoom =
      some ((updateMaxBounds (buildProjCrsQ none) none
        ⟨5, none, [⟨true, none, none⟩]⟩).minZoom) :=
  C7_min_zoom_applied_atomically (buildProjCrsQ none) none
    ⟨5, none, [⟨true, none, none⟩]⟩ ⟨true, some 0, some 0⟩
    (by simp [updateMaxBounds, setMaxBoundsState, setMinZoomFromBounds,
      applyMinZoom, computeMinZoom, updateLayerMinZoom])
    rfl

/-! ## JavaScript extended numbers, the patched `flyTo` and `doZoomTo`

The degenerate-extent path of `doZoomTo` runs through JavaScript
division-by-zero: a positive viewport size divided by a zero pixel extent
is `Infinity`, which propagates through `Math.min`, multiplication by a
positive scale and `Math.log2`.  `JsNum` models a JS number that is either
finite or `Infinity`; the embedded operations are faithful on the inputs
these call sites produce (positive viewport, positive CRS scale). -/

/-- A JS number: finite, or positive `Infinity`. -/
inductive JsNum where
  | fin : ℝ → JsNum
  | inf : JsNum

/-- JS `isFinite`. -/
def JsNum.isFiniteB : JsNum → Bool
  | .fin _ => true
  | .inf => false

/-- JS `Math.min` (no `NaN` inputs): `Infinity` is the identity. -/
def jsMin : JsNum → JsNum → JsNum
  | .fin a, .fin b => .fin (min a b)
  | .inf, b => b
  | a, .inf => a

/-- JS division with a positive numerator: division by zero yields
`Infinity`. -/
noncomputable def jsDiv (a b : ℝ) : JsNum :=
  if b = 0 then .inf else .fin (a / b)

/-- JS multiplication by a positive finite factor: `Infinity` absorbs. -/
def jsMulFin (a : JsNum) (c : ℝ) : JsNum :=
  match a with
  | .fin x => .fin (x * c)
  | .inf => .inf

/-- The CRS `zoom` function on a JS number: `log2(Infinity * res0)` is
`Infinity` (not `NaN`, so Leaflet's `getScaleZoom` passes it through). -/
noncomputable def jsZoomFn (res0 : ℝ) : JsNum → JsNum
  | .inf => .inf
  | .fin s => .fin (derivedZoom res0 s)

/-- Leaflet `map.getScaleZoom(scale, fromZoom)`:
`crs.zoom(scale * crs.scale(fromZoom))`. -/
noncomputable def getScaleZoomJs (res0 : ℝ) (scale : JsNum) (fromZoom : ℝ) : JsNum :=
  jsZoomFn res0 (jsMulFin scale (derivedScale res0 fromZoom))

/-- `L.bounds` over a nonempty list of real points: fold of componentwise
min/max from the first point. -/
def lboundsR (p : ℝ × ℝ) (ps : List (ℝ × ℝ)) : (ℝ × ℝ) × (ℝ × ℝ) :=
  ps.foldl
    (fun acc q =>
      ((min acc.1.1 q.1, min acc.1.2 q.2), (max acc.2.1 q.1, max acc.2.2 q.2)))
    (p, p)

/-- The viewer state the patched `flyTo` can mutate. -/
structure ViewSt where
  center : ℝ × ℝ
  zoom : ℝ

/-- Log messages emitted at the viewer boundary. -/
inductive LogMsg where
  | infiniteZoomIgnored
  | zoomErrorCaught
deriving DecidableEq, Repr

/-- The `animate` option the patched `flyTo` passes on: an explicit
`animate: false` wins; otherwise animation is off for an infinite CRS or a
preview viewer. -/
def animateOf (infiniteCrs isPreviewViewer : Bool) (animateOpt : Option Bool) : Bool :=
  if animateOpt = some false then false
  else if infiniteCrs || isPreviewViewer then false else true

/-- The patched `map.flyTo` from `patchFlyTo`: a defined non-finite zoom
is logged and ignored before any mutation; otherwise the original `flyTo`
runs with the adjusted animate option, and a thrown projection
(out-of-domain) error is caught and logged, leaving the state unchanged. -/
def patchedFlyTo
    (original : ViewSt → (ℝ × ℝ) → Option JsNum → Bool → Except Unit ViewSt)
    (infiniteCrs isPreviewViewer : Bool) (st : ViewSt) (latLng : ℝ × ℝ)
    (zoom : Option JsNum) (animateOpt : Option Bool) : ViewSt × List LogMsg :=
  match zoom with
  | some .inf => (st, [.infiniteZoomIgnored])
  | _ =>
    match original st latLng zoom (animateOf infiniteCrs isPreviewViewer animateOpt) with
    | .ok st2 => (st2, [])
    | .error _ => (st, [.zoomErrorCaught])

/-- The fit scale and new zoom of the `doZoomTo` multi-point-extent
branch: pixel bounds of the projected extent points, fit scale
`min(mapWidth / extentWidth, mapHeight / extentHeight)`, new zoom via
`map.getScaleZoom` at the current zoom. -/
noncomputable def computeExtentZoom (res0 : ℝ) (projPoint : ℝ × ℝ)
    (projRest : List (ℝ × ℝ)) (mapSize : ℝ × ℝ) (currentZoom : ℝ) : JsNum :=
  let pixelBounds := lboundsR projPoint projRest
  let boundsSize := (pixelBounds.2.1 - pixelBounds.1.1, pixelBounds.2.2 - pixelBounds.1.2)
  let scale := jsMin (jsDiv mapSize.1 boundsSize.1) (jsDiv mapSize.2 boundsSize.2)
  getScaleZoomJs res0 scale currentZoom

/-- The `doZoomTo` multi-point-extent branch: compute the new zoom and the
unprojected centroid of the natively-projected extent, then call the
patched `flyTo` with animation iff the flight duration is positive. -/
noncomputable def doZoomToExtent
    (original : ViewSt → (ℝ × ℝ) → Option JsNum → Bool → Except Unit ViewSt)
    (infiniteCrs isPreviewViewer : Bool) (res0 : ℝ)
    (projPoint : ℝ × ℝ) (projRest : List (ℝ × ℝ))
    (crsPoint : ℝ × ℝ) (crsRest : List (ℝ × ℝ))
    (unprojectC : ℝ × ℝ → ℝ × ℝ) (mapSize : ℝ × ℝ) (currentZoom : ℝ)
    (st : ViewSt) (flightDurationSeconds : ℝ) : ViewSt × List LogMsg :=
  let newZoom := computeExtentZoom res0 projPoint projRest mapSize currentZoom
  let cb := lboundsR crsPoint crsRest
  let newCenter := unprojectC ((cb.1.1 + cb.2.1) / 2, (cb.1.2 + cb.2.2) / 2)
  patchedFlyTo original infiniteCrs isPreviewViewer st newCenter (some newZoom)
    (some (if flightDurationSeconds > 0 then true else false))

/-- With all extent points identical, `L.bounds` degenerates to that
point. -/
theorem lboundsR_const (p : ℝ × ℝ) (ps : List (ℝ × ℝ))
    (h : ∀ q ∈ ps, q = p) : lboundsR p ps = (p, p) := by
  induction ps with
  | nil => rfl
  | cons q qs ih =>
    have hq : q = p := h q (List.mem_cons_self q qs)
    have hqs : ∀ r ∈ qs, r = p := fun r hr => h r (List.mem_cons_of_mem q hr)
    subst hq
    unfold lboundsR at ih ⊢
    rw [List.foldl_cons]
    simpa [min_self, max_self] using ih hqs

/-- C6: a fly-to with a defined non-finite zoom is rejected before any
viewer mutation, logged, and is a no-op; and a fly-to whose underlying
implementation raises a domain error is caught at the viewer boundary,
logged, and leaves the viewer state unchanged. -/
theorem C6_flyto_rejects_and_catches :
    (∀ original infiniteCrs isPreviewViewer st latLng animateOpt,
      patchedFlyTo original infiniteCrs isPreviewViewer st latLng
        (some JsNum.inf) animateOpt = (st, [LogMsg.infiniteZoomIgnored])) ∧
    (∀ original infiniteCrs isPreviewViewer st latLng zoom animateOpt,
      zoom ≠ some JsNum.inf →
      original st latLng zoom (animateOf infiniteCrs isPreviewViewer animateOpt) =
        .error () →
      patchedFlyTo original infiniteCrs isPreviewViewer st latLng zoom animateOpt =
        (st, [LogMsg.zoomErrorCaught])) := by
  refine ⟨fun _ _ _ _ _ _ => rfl, ?_⟩
  intro original infiniteCrs isPreviewViewer st latLng zoom animateOpt hz herr
  rcases zoom with _ | z
  · simp [patchedFlyTo, herr]
  · rcases z with x | _
    · simp [patchedFlyTo, herr]
    · exact absurd rfl hz

/-- An original `flyTo` that always raises a (projection domain) error. -/
def failingFlyTo : ViewSt → (ℝ × ℝ) → Option JsNum → Bool → Except Unit ViewSt :=
  fun _ _ _ _ => .error ()

/-- A concrete viewer state for witnesses. -/
def sampleView : ViewSt := ⟨(0, 0), 0⟩

/-- Witness for C6: a non-finite zoom request and a throwing original is
each a logged no-op. -/
theorem C6_flyto_rejects_and_catches_witness :
    patchedFlyTo failingFlyTo false false sampleView (0, 0)
      (some JsNum.inf) none = (sampleView, [LogMsg.infiniteZoomIgnored]) ∧
    patchedFlyTo failingFlyTo false false sampleView (0, 0)
      (some (JsNum.fin 1)) none = (sampleView, [LogMsg.zoomErrorCaught]) :=
  ⟨C6_flyto_rejects_and_catches.1 failingFlyTo false false sampleView (0, 0) none,
   C6_flyto_rejects_and_catches.2 failingFlyTo false false sampleView (0, 0)
     (some (JsNum.fin 1)) none (by simp) rfl⟩

/-- C3: when every extent point projects to the same pixel, the computed
new zoom is `Infinity` — the maximum representable zoom — and the zoom
operation completes as a logged no-op, raising no error regardless of the
underlying `flyTo` implementation. -/
theorem C3_degenerate_extent_max_zoom (res0 : ℝ) (p : ℝ × ℝ)
    (ps : List (ℝ × ℝ)) (mapSize : ℝ × ℝ) (currentZoom : ℝ)
    (hdeg : ∀ q ∈ ps, q = p) (_hw : 0 < mapSize.1) (_hh : 0 < mapSize.2) :
    computeExtentZoom res0 p ps mapSize currentZoom = JsNum.inf ∧
    ∀ original infiniteCrs isPreviewViewer crsPoint crsRest unprojectC st
        flightDurationSeconds,
      doZoomToExtent original infiniteCrs isPreviewViewer res0 p ps
        crsPoint crsRest unprojectC mapSize currentZoom st
        flightDurationSeconds = (st, [LogMsg.infiniteZoomIgnored]) := by
  have hb := lboundsR_const p ps hdeg
  have hzoom : computeExtentZoom res0 p ps mapSize currentZoom = JsNum.inf := by
    unfold computeExtentZoom
    rw [hb]
    simp [jsDiv, jsMin, getScaleZoomJs, jsMulFin, jsZoomFn]
  refine ⟨hzoom, ?_⟩
  intro original infiniteCrs isPreviewViewer crsPoint crsRest unprojectC st fd
  unfold doZoomToExtent
  rw [hzoom]
  rfl

/-- Witness for C3 at a singleton extent. -/
theorem C3_degenerate_extent_max_zoom_witness :
    computeExtentZoom 256 (0, 0) [] (100, 100) 0 = JsNum.inf ∧
    doZoomToExtent failingFlyTo false false 256 (0, 0) [] (0, 0) [] id
      (100, 100) 0 sampleView 3 = (sampleView, [LogMsg.infiniteZoomIgnored]) := by
  have h := C3_degenerate_extent_max_zoom 256 (0, 0) [] (100, 100) 0
    (by simp) (by norm_num) (by norm_num)
  exact ⟨h.1, h.2 failingFlyTo false false (0, 0) [] id sampleView 3⟩

/-- round8-exactness of a point. -/
def round8Exact (p : PointQ) : Prop := round8 p.1 = p.1 ∧ round8 p.2 = p.2

theorem inv_lt_of_strictMono {f g : ℚ → ℚ} (hf : StrictMono f)
    (hfg : ∀ q, f (g q) = q) {u v : ℚ} (huv : u < v) : g u < g v := by
  by_contra hle
  push_neg at hle
  have h2 : f (g v) ≤ f (g u) := hf.monotone hle
  rw [hfg, hfg] at h2
  exact absurd h2 (not_le.mpr huv)

theorem floor_div_eq_of_bounds {p tw : ℚ} {n : ℤ} (htw : 0 < tw)
    (hlo : (n : ℚ) * tw < p) (hhi : p < ((n : ℚ) + 1) * tw) : ⌊p / tw⌋ = n := by
  rw [Int.floor_eq_iff]
  constructor
  · rw [le_div_iff₀ htw]
    exact le_of_lt hlo
  · rw [div_lt_iff₀ htw]
    exact hhi

/-- C4: for every tile address, unprojecting the tile's native rectangle,
taking the geographic center and passing it back through
`positionToTileXY` at the same level returns the same tile.  Hypotheses:
the proj4 transform is separable and strictly monotone per axis with a
two-sided inverse, the tile size is positive, the derived zoom-0
resolution is positive, and the tile's native corner coordinates are
exactly representable at 8 decimal places (so `round8` does not move
them). -/
theorem C4_tile_center_roundtrip (ts : TilingSchemeQ) (x y : ℤ) (level : ℕ)
    (hXmono : StrictMono ts.X) (hYmono : StrictMono ts.Y)
    (hXinv : ∀ q, ts.X (ts.Xinv q) = q) (hYinv : ∀ q, ts.Y (ts.Yinv q) = q)
    (hres : 0 < ts.crs.res0) (htw : 0 < ts.tileW) (hth : 0 < ts.tileH)
    (h8nw : round8Exact (untransformQ ts.crs ((x : ℚ) * ts.tileW, (y : ℚ) * ts.tileH)
      (scaleQ ts.crs level)))
    (h8se : round8Exact (untransformQ ts.crs
      ((x : ℚ) * ts.tileW + ts.tileW, (y : ℚ) * ts.tileH + ts.tileH)
      (scaleQ ts.crs level))) :
    positionToTileXY ts (rectCenter (tileXYToRectangle ts x y level)) level = (x, y) := by
  have hs : 0 < scaleQ ts.crs level := by
    unfold scaleQ
    positivity
  set s := scaleQ ts.crs level with hs_def
  obtain ⟨h8nw1, h8nw2⟩ := h8nw
  obtain ⟨h8se1, h8se2⟩ := h8se
  simp only [untransformQ] at h8nw1 h8nw2 h8se1 h8se2
  have e1 : ((x : ℚ) * ts.tileW / s - ts.crs.b) / 1 =
      (x : ℚ) * ts.tileW / s - ts.crs.b := div_one _
  have e2 : ((y : ℚ) * ts.tileH / s - ts.crs.d) / (-1) =
      ts.crs.d - (y : ℚ) * ts.tileH / s := by ring
  have e3 : (((x : ℚ) * ts.tileW + ts.tileW) / s - ts.crs.b) / 1 =
      (x : ℚ) * ts.tileW / s + ts.tileW / s - ts.crs.b := by
    rw [div_one, add_div]
  have e4 : (((y : ℚ) * ts.tileH + ts.tileH) / s - ts.crs.d) / (-1) =
      ts.crs.d - ((y : ℚ) * ts.tileH / s + ts.tileH / s) := by
    rw [add_div]
    ring
  rw [e1] at h8nw1
  rw [e2] at h8nw2
  rw [e3] at h8se1
  rw [e4] at h8se2
  set A := (x : ℚ) * ts.tileW / s with hA
  set B := (y : ℚ) * ts.tileH / s with hB
  set TW := ts.tileW / s with hTW
  set TH := ts.tileH / s with hTH
  have hTWpos : 0 < TW := div_pos htw hs
  have hTHpos : 0 < TH := div_pos hth hs
  have hlt1 : A - ts.crs.b < A + TW - ts.crs.b := by linarith
  have hlt2 : ts.crs.d - (B + TH) < ts.crs.d - B := by linarith
  have hnative : tileXYToNativeRectangle ts x y level =
      ⟨A - ts.crs.b, ts.crs.d - (B + TH), A + TW - ts.crs.b, ts.crs.d - B⟩ := by
    simp only [tileXYToNativeRectangle, pointToLatLng, unprojectLL, projectLL,
      untransformQ, lbounds]
    simp only [hXinv, hYinv]
    rw [e1, e2, e3, e4]
    rw [min_eq_left (le_of_lt hlt1), min_eq_right (le_of_lt hlt2),
      max_eq_right (le_of_lt hlt1), max_eq_left (le_of_lt hlt2)]
    rw [h8nw1, h8nw2, h8se1, h8se2]
  have hgeo : tileXYToRectangle ts x y level =
      ⟨ts.Xinv (A - ts.crs.b), ts.Yinv (ts.crs.d - (B + TH)),
       ts.Xinv (A + TW - ts.crs.b), ts.Yinv (ts.crs.d - B)⟩ := by
    unfold tileXYToRectangle unprojectLL
    rw [hnative]
  have hXinvlt : ts.Xinv (A - ts.crs.b) < ts.Xinv (A + TW - ts.crs.b) :=
    inv_lt_of_strictMono hXmono hXinv hlt1
  have hYinvlt : ts.Yinv (ts.crs.d - (B + TH)) < ts.Yinv (ts.crs.d - B) :=
    inv_lt_of_strictMono hYmono hYinv hlt2
  rw [hgeo]
  unfold rectCenter
  set latc := (ts.Yinv (ts.crs.d - (B + TH)) + ts.Yinv (ts.crs.d - B)) / 2 with hlatc
  set lngc := (ts.Xinv (A - ts.crs.b) + ts.Xinv (A + TW - ts.crs.b)) / 2 with hlngc
  have hXc : A - ts.crs.b < ts.X lngc ∧ ts.X lngc < A + TW - ts.crs.b := by
    constructor
    · have h := hXmono (show ts.Xinv (A - ts.crs.b) < lngc by rw [hlngc]; linarith)
      rwa [hXinv] at h
    · have h := hXmono (show lngc < ts.Xinv (A + TW - ts.crs.b) by rw [hlngc]; linarith)
      rwa [hXinv] at h
  have hYc : ts.crs.d - (B + TH) < ts.Y latc ∧ ts.Y latc < ts.crs.d - B := by
    constructor
    · have h := hYmono (show ts.Yinv (ts.crs.d - (B + TH)) < latc by rw [hlatc]; linarith)
      rwa [hYinv] at h
    · have h := hYmono (show latc < ts.Yinv (ts.crs.d - B) by rw [hlatc]; linarith)
      rwa [hYinv] at h
  have hsa : s * A = (x : ℚ) * ts.tileW := by
    rw [hA, mul_comm, div_mul_cancel₀ _ (ne_of_gt hs)]
  have hsb : s * B = (y : ℚ) * ts.tileH := by
    rw [hB, mul_comm, div_mul_cancel₀ _ (ne_of_gt hs)]
  have hstw : s * TW = ts.tileW := by
    rw [hTW, mul_comm, div_mul_cancel₀ _ (ne_of_gt hs)]
  have hsth : s * TH = ts.tileH := by
    rw [hTH, mul_comm, div_mul_cancel₀ _ (ne_of_gt hs)]
  simp only [positionToTileXY, latLngToPoint, transformQ, projectLL]
  rw [← hs_def]
  clear hnative hgeo h8nw1 h8nw2 h8se1 h8se2 e1 e2 e3 e4 hXinvlt hYinvlt
  clear hlt1 hlt2 hTWpos hTHpos hres
  clear hs_def hA hB hTW hTH hlatc hlngc
  clear_value s A B TW TH latc lngc
  refine Prod.ext ?_ ?_
  · show (⌊s * (1 * ts.X lngc + ts.crs.b) / ts.tileW⌋ : ℤ) = x
    apply floor_div_eq_of_bounds htw
    · have h := mul_lt_mul_of_pos_left hXc.1 hs
      have hexp1 : s * (A - ts.crs.b) = s * A - s * ts.crs.b := by ring
      have hexp2 : s * (1 * ts.X lngc + ts.crs.b) =
          s * ts.X lngc + s * ts.crs.b := by ring
      linarith [h, hsa, hexp1, hexp2]
    · have h := mul_lt_mul_of_pos_left hXc.2 hs
      have hexp1 : s * (A + TW - ts.crs.b) = s * A + s * TW - s * ts.crs.b := by
        ring
      have hexp2 : s * (1 * ts.X lngc + ts.crs.b) =
          s * ts.X lngc + s * ts.crs.b := by ring
      have hexp3 : ((x : ℚ) + 1) * ts.tileW = (x : ℚ) * ts.tileW + ts.tileW := by
        ring
      linarith [h, hsa, hstw, hexp1, hexp2, hexp3]
  · show (⌊s * (-1 * ts.Y latc + ts.crs.d) / ts.tileH⌋ : ℤ) = y
    apply floor_div_eq_of_bounds hth
    · have h := mul_lt_mul_of_pos_left hYc.2 hs
      have hexp1 : s * (ts.crs.d - B) = s * ts.crs.d - s * B := by ring
      have hexp2 : s * (-1 * ts.Y latc + ts.crs.d) =
          s * ts.crs.d - s * ts.Y latc := by ring
      linarith [h, hsb, hexp1, hexp2]
    · have h := mul_lt_mul_of_pos_left hYc.1 hs
      have hexp1 : s * (ts.crs.d - (B + TH)) =
          s * ts.crs.d - s * B - s * TH := by ring
      have hexp2 : s * (-1 * ts.Y latc + ts.crs.d) =
          s * ts.crs.d - s * ts.Y latc := by ring
      have hexp3 : ((y : ℚ) + 1) * ts.tileH = (y : ℚ) * ts.tileH + ts.tileH := by
        ring
      linarith [h, hsb, hsth, hexp1, hexp2, hexp3]

/-- Witness for C4: the identity projection over the unbounded CRS at
level 8 (scale 1), tile (0, 0). -/
theorem C4_tile_center_roundtrip_witness :
    positionToTileXY unboundedScheme
      (rectCenter (tileXYToRectangle unboundedScheme 0 0 8)) 8 = (0, 0) :=
  C4_tile_center_roundtrip unboundedScheme 0 0 8
    (by show StrictMono id; exact strictMono_id)
    (by show StrictMono id; exact strictMono_id)
    (fun q => rfl) (fun q => rfl)
    (by norm_num [unboundedScheme, buildTilingScheme, buildProjCrsQ, parseBounds])
    (by norm_num [unboundedScheme, buildTilingScheme])
    (by norm_num [unboundedScheme, buildTilingScheme])
    (by
      constructor <;>
        norm_num [round8, jsRound, untransformQ, scaleQ, unboundedScheme,
          buildTilingScheme, buildProjCrsQ, parseBounds])
    (by
      constructor <;>
        norm_num [round8, jsRound, untransformQ, scaleQ, unboundedScheme,
          buildTilingScheme, buildProjCrsQ, parseBounds])
